import Mathlib

/-!
Shallow embedding of `transform/kubernetes/kubernetes.go` from
konveyor/crane-lib, together with the small parts of its external
collaborators (k8s.io/apimachinery `unstructured` helpers, `strconv.Atoi`,
`encoding/json` decoding into `map[string]interface{}`) that the plugin
exercises.  Go `interface{}` trees are modelled by the inductive `Value`;
Go maps `map[string]interface{}` by association lists in textual order
(the inputs of interest have no duplicate keys).
-/

namespace CraneLib

/-- A Go `interface{}` value as it occurs in an unstructured Kubernetes
object: `nil`, `bool`, the integer kinds `int`/`int32`/`int64` that
`getNodePortInt` distinguishes by a type switch, a `float64` (modelled
exactly by a rational; no claim depends on float64 rounding), `string`,
`[]interface{}` and `map[string]interface{}`. -/
inductive Value where
  | null : Value
  | bool (b : Bool) : Value
  | int (n : Int) : Value
  | int32 (n : Int) : Value
  | int64 (n : Int) : Value
  | num (q : Rat) : Value
  | str (s : String) : Value
  | arr (xs : List Value) : Value
  | obj (fs : List (String × Value)) : Value

/-- The top-level `unstructured.Unstructured.Object` map. -/
abbrev Obj := List (String × Value)

/-- First-match lookup in a Go map modelled as an association list
(`v, ok := m[key]`). -/
def lookupField (fs : List (String × Value)) (key : String) : Option Value :=
  match fs with
  | [] => none
  | (k, v) :: rest => if k = key then some v else lookupField rest key

/-- Go interface comparison `v == s` of an `interface{}` against a string
constant: true iff the dynamic type is `string` with that exact content.
(Comparing a map- or slice-valued interface against a string is fine in Go:
the dynamic types differ, so the comparison is `false`, no panic.) -/
def Value.eqString (v : Value) (s : String) : Bool :=
  match v with
  | .str t => t == s
  | _ => false

/-- Result of `unstructured.NestedFieldNoCopy`: the Go signature is
`(interface{}, bool, error)` and exactly one of `found`/`absent`/`fieldErr`
describes each return. -/
inductive Nested where
  | found (v : Value) : Nested
  | absent : Nested
  | fieldErr (msg : String) : Nested

/-- Tells whether a `Nested` result is the error case. -/
def Nested.isErr : Nested → Bool
  | .fieldErr _ => true
  | _ => false

/-- Tells whether a `Nested` result is the found case. -/
def Nested.isFound : Nested → Bool
  | .found _ => true
  | _ => false

/-- `unstructured.NestedFieldNoCopy(obj, fields...)`: walk the tree one
field at a time; a `nil` intermediate reports absent, a present non-map
intermediate is an error, a missing key is absent. -/
def nestedField (v : Value) (fields : List String) : Nested :=
  match fields with
  | [] => .found v
  | f :: rest =>
    match v with
    | .null => .absent
    | .obj fs =>
      match lookupField fs f with
      | some v' => nestedField v' rest
      | none => .absent
    | _ => .fieldErr ("value cannot be traversed at field " ++ f)

/-- Presence of a nested path (the `found` flag of `NestedFieldNoCopy`). -/
def nestedPresent (u : Obj) (fields : List String) : Bool :=
  (nestedField (.obj u) fields).isFound

/-- `schema.GroupKind`. -/
structure GroupKind where
  group : String
  kind : String
deriving DecidableEq

/-- `unstructured.GetAPIVersion` / `getNestedString`: the field's string
content, or `""` when absent or not a string. -/
def getStringField (u : Obj) (key : String) : String :=
  match lookupField u key with
  | some (.str s) => s
  | _ => ""

/-- `obj.GroupVersionKind().GroupKind()`: `schema.ParseGroupVersion` splits
`apiVersion` on `/` — no slash means the core group, one slash means
`group/version`, and more slashes is a parse error, which
`GroupVersionKind()` turns into the empty GroupVersionKind. -/
def groupKind (u : Obj) : GroupKind :=
  let apiVersion := getStringField u "apiVersion"
  let kind := getStringField u "kind"
  match apiVersion.splitOn "/" with
  | [_] => { group := "", kind := kind }
  | [g, _] => { group := g, kind := kind }
  | _ => { group := "", kind := "" }

/-- `groupKindInList` from kubernetes.go. -/
def groupKindInList (gk : GroupKind) (list : List GroupKind) : Bool :=
  match list with
  | [] => false
  | thisGK :: rest => if gk = thisGK then true else groupKindInList gk rest

def endpointGK : GroupKind := { group := "", kind := "Endpoints" }

def endpointSliceGK : GroupKind := { group := "discovery.k8s.io", kind := "EndpointSlice" }

def pvcGK : GroupKind := { group := "", kind := "PersistentVolumeClaim" }

def podGK : GroupKind := { group := "", kind := "Pod" }

def serviceGK : GroupKind := { group := "", kind := "Service" }

def gksToWhiteout : List GroupKind := [endpointGK, endpointSliceGK, pvcGK]

/-- `u.GetAnnotations()`: `NestedStringMap(u.Object, "metadata",
"annotations")` with the error ignored — the map is returned only when
every value is a string, otherwise the result is nil. -/
def getAnnotations (u : Obj) : List (String × String) :=
  match nestedField (.obj u) ["metadata", "annotations"] with
  | .found (.obj m) =>
    if m.all (fun kv => match kv.2 with | .str _ => true | _ => false) then
      m.filterMap (fun kv => match kv.2 with | .str s => some (kv.1, s) | _ => none)
    else []
  | _ => []

/-- String-map lookup with the `ok` flag (`v, ok := m[key]`). -/
def lookupString (m : List (String × String)) (key : String) : Option String :=
  match m with
  | [] => none
  | (k, v) :: rest => if k = key then some v else lookupString rest key

/-- `len(obj.GetOwnerReferences())`: `GetOwnerReferences` reads
`metadata.ownerReferences`; unless it is a slice whose elements are all
maps, the returned slice is nil (length 0). -/
def ownerReferencesCount (u : Obj) : Nat :=
  match nestedField (.obj u) ["metadata", "ownerReferences"] with
  | .found (.arr xs) =>
    if xs.all (fun x => match x with | .obj _ => true | _ => false) then xs.length else 0
  | _ => 0

/-- Modelled from the spec: `types.IsPodSpecable` (package
`transform/types`, not among the provided sources) reports whether the
resource embeds a pod template at its conventional nested path
`spec.template`. -/
def isPodSpecable (u : Obj) : Bool :=
  match nestedField (.obj u) ["spec", "template"] with
  | .found (.obj _) => true
  | _ => false

/-- The plugin's resolved configuration (`KubernetesTransformPlugin` after
`setOptionalFields`); `AddAnnotations` and `RegistryReplacement` are Go
maps, modelled as association lists (one binding per key). -/
structure KubernetesTransformPlugin where
  addAnnotations : List (String × String)
  removeAnnotations : List String
  registryReplacement : List (String × String)
  disableWhiteoutOwned : Bool
  extraWhiteouts : List GroupKind
  includeOnly : List GroupKind

/-- The all-empty configuration (no optional field set). -/
def defaultPlugin : KubernetesTransformPlugin :=
  { addAnnotations := [], removeAnnotations := [], registryReplacement := [],
    disableWhiteoutOwned := false, extraWhiteouts := [], includeOnly := [] }

/-- The tail of `getWhiteOuts` every resource falls through to when no
filter list whites it out: unless `DisableWhiteoutOwned`, a bare Pod or a
pod-template bearing resource with at least one owner reference is whited
out. -/
def whiteoutOwned (k : KubernetesTransformPlugin) (u : Obj) : Bool :=
  if k.disableWhiteoutOwned then false
  else if (groupKind u = podGK ∨ isPodSpecable u = true) ∧ 0 < ownerReferencesCount u then true
  else false

/-- `(k *KubernetesTransformPlugin) getWhiteOuts`: a non-empty
include-only list is the sole filter (blocklist and extra whiteouts are
not consulted), otherwise the built-in blocklist and the extra whiteouts
apply; every path not returning early falls through to the owned-resource
rule `whiteoutOwned`. -/
def getWhiteOuts (k : KubernetesTransformPlugin) (u : Obj) : Bool :=
  let gk := groupKind u
  if 0 < k.includeOnly.length then
    if groupKindInList gk k.includeOnly = false then true
    else whiteoutOwned k u
  else
    if groupKindInList gk gksToWhiteout then true
    else if groupKindInList gk k.extraWhiteouts then true
    else whiteoutOwned k u

/-- One decoded RFC-6902 operation, as produced by `jsonpatch.DecodePatch`
on the JSON text the plugin formats. All paths the plugin builds are kept
as the literal strings it formats. -/
inductive PatchOp where
  | remove (path : String) : PatchOp
  | add (path : String) (value : Value) : PatchOp
  | replace (path : String) (value : Value) : PatchOp

/-- Outcome of a Go function returning `(T, error)`: `ok` for a nil error,
`err` for a non-nil error together with the value returned beside it, and
`panicked` for a runtime panic that unwinds past the function. -/
inductive Res (α : Type) where
  | ok (a : α) : Res α
  | err (a : α) (msg : String) : Res α
  | panicked : Res α

/-- Tells whether a `Res` is the ok case. -/
def Res.isOk {α : Type} : Res α → Bool
  | .ok _ => true
  | _ => false

/-- The value carried by an ok or err result (`panicked` yields the
default). -/
def Res.getD {α : Type} (r : Res α) (d : α) : α :=
  match r with
  | .ok a => a
  | .err a _ => a
  | .panicked => d

/-- `strconv.Atoi`: optional sign followed by at least one decimal digit,
anything else is a syntax error. (The int64 range check is not modelled;
no claim involves out-of-range literals.) -/
def atoi (s : String) : Except String Int :=
  let afterSign : List Char :=
    match s.toList with
    | '-' :: rest => rest
    | '+' :: rest => rest
    | l => l
  let sign : Int := if s.toList.head? = some '-' then -1 else 1
  if afterSign.isEmpty || !(afterSign.all Char.isDigit) then
    .error ("parsing " ++ s ++ ": invalid syntax")
  else
    .ok (sign * (afterSign.foldl (fun a c => a * 10 + (Int.ofNat (c.toNat - 48))) 0))

/-- Go conversion `int(f)` of a `float64`: truncation toward zero,
which on a rational is T-division of numerator by denominator. -/
def goTrunc (q : Rat) : Int :=
  Int.tdiv q.num (Int.ofNat q.den)

/-- `getNodePortInt`: type switch over the dynamic type of the value. In
the `string` case the source declares a fresh `nodePortInt` with `:=`,
shadowing the outer one, so a successfully parsed string leaves the outer
`nodePortInt` at 0 and only the error of an unparseable string escapes.
A value of any other dynamic type also leaves 0 with a nil error. -/
def getNodePortInt (nodePort : Value) : Except String Int :=
  match nodePort with
  | .int n => .ok n
  | .int32 n => .ok n
  | .int64 n => .ok n
  | .num q => .ok (goTrunc q)
  | .str s =>
    match atoi s with
    | .ok _ => .ok 0
    | .error m => .error m
  | _ => .ok 0

/-- The `fieldsToStrip` table. -/
def fieldsToStrip : List (List String) :=
  [["metadata", "uid"],
   ["metadata", "selfLink"],
   ["metadata", "resourceVersion"],
   ["metadata", "creationTimestamp"],
   ["metadata", "generation"],
   ["status"]]

/-- The `/`-joined JSON-pointer the plugin formats for a field path
(`strings.Repeat("/%v", len(field))` applied to the parts). -/
def pathString (field : List String) : String :=
  String.join (field.map (fun f => "/" ++ f))

/-- The loop body of `stripFields` over a list of field paths: a traversal
error aborts with the patches accumulated so far (`return patches, err`),
a present path appends one remove operation. -/
def stripFieldsAux (u : Obj) (fields : List (List String)) : Res (List PatchOp) :=
  match fields with
  | [] => .ok []
  | f :: rest =>
    match nestedField (.obj u) f with
    | .fieldErr m => .err [] m
    | .absent => stripFieldsAux u rest
    | .found _ =>
      match stripFieldsAux u rest with
      | .ok ps => .ok (.remove (pathString f) :: ps)
      | .err ps m => .err (.remove (pathString f) :: ps) m
      | .panicked => .panicked

/-- `stripFields`. (`jsonpatch.DecodePatch` on the constant-shape remove
document it formats always succeeds, so only the traversal can fail.) -/
def stripFields (u : Obj) : Res (List PatchOp) :=
  stripFieldsAux u fieldsToStrip

/-- `addAnnotations`: one add operation per configured key/value at
`/metadata/annotations/<key>`, in iteration order. The source splices key
and value textually into a JSON document and decodes it; for keys and
values that keep that document well-formed (every input of interest) the
decoded result is exactly this list. -/
def addAnnotationsOps (annotations : List (String × String)) : Res (List PatchOp) :=
  .ok (annotations.map (fun kv => .add ("/metadata/annotations/" ++ kv.1) (.str kv.2)))

/-- `removeAnnotations`: one unconditional remove operation per configured
key at `/metadata/annotations/<key>` — no presence check. -/
def removeAnnotationsOps (keys : List String) : Res (List PatchOp) :=
  .ok (keys.map (fun key => .remove ("/metadata/annotations/" ++ key)))

/-- `removePodFields`: three unconditional remove operations; the decoded
constant documents never fail. -/
def removePodFields : Res (List PatchOp) :=
  .ok [.remove "/spec/nodeName", .remove "/spec/nodeSelector", .remove "/spec/priority"]

/-- `isLoadBalancerService`. -/
def isLoadBalancerService (u : Obj) : Bool :=
  match lookupField u "spec" with
  | none => false
  | some spec =>
    match spec with
    | .obj specMap =>
      match lookupField specMap "type" with
      | none => false
      | some serviceType => serviceType.eqString "LoadBalancer"
    | _ => false

/-- `shouldRemoveServiceClusterIP`: the clusterIP field must exist under a
map-shaped spec, and any value other than the string `"None"` is removed. -/
def shouldRemoveServiceClusterIP (u : Obj) : Bool :=
  match lookupField u "spec" with
  | none => false
  | some spec =>
    match spec with
    | .obj specMap =>
      match lookupField specMap "clusterIP" with
      | none => false
      | some clusterIP => !(clusterIP.eqString "None")
    | _ => false

/-- `shouldRemoveServiceClusterIPs`: once the field exists, remove unless
it is a non-empty slice whose first element is the string `"None"`. -/
def shouldRemoveServiceClusterIPs (u : Obj) : Bool :=
  match lookupField u "spec" with
  | none => false
  | some spec =>
    match spec with
    | .obj specMap =>
      match lookupField specMap "clusterIPs" with
      | none => false
      | some clusterIPs =>
        match clusterIPs with
        | .arr xs =>
          match xs with
          | [] => true
          | x :: _ => !(x.eqString "None")
        | _ => true
    | _ => false

/-! ### `encoding/json` decoding into `map[string]interface{}`

`json.Unmarshal` into a `map[string]interface{}` produces maps, slices,
strings, `float64` numbers, booleans and `nil`. The decoder below models
the JSON grammar the plugin's annotation documents use (objects, arrays,
strings with the common escapes, integer and decimal numbers without
exponents, literals); anything else is a decode error. -/

/-- Skips JSON whitespace. -/
def skipWs (cs : List Char) : List Char :=
  match cs with
  | c :: rest => if c = ' ' || c = '\n' || c = '\t' || c = '\r' then skipWs rest else c :: rest
  | [] => []

/-- Parses the body of a JSON string after the opening quote, returning
its characters and the remainder after the closing quote. -/
def parseJsonString (cs : List Char) : Option (List Char × List Char) :=
  match cs with
  | [] => none
  | c :: rest =>
    if c = '"' then some ([], rest)
    else if c = '\\' then
      match rest with
      | [] => none
      | e :: rest' =>
        let esc : Option Char :=
          if e = '"' then some '"'
          else if e = '\\' then some '\\'
          else if e = '/' then some '/'
          else if e = 'n' then some '\n'
          else if e = 't' then some '\t'
          else if e = 'r' then some '\r'
          else none
        match esc with
        | none => none
        | some ch =>
          match parseJsonString rest' with
          | some (s, r) => some (ch :: s, r)
          | none => none
    else
      match parseJsonString rest with
      | some (s, r) => some (c :: s, r)
      | none => none

/-- Decimal digits to a natural number. -/
def digitsToNat (ds : List Char) : Nat :=
  ds.foldl (fun a c => a * 10 + (c.toNat - 48)) 0

/-- True when the input does not continue with an exponent marker. -/
def noExponentNext (cs : List Char) : Bool :=
  match cs with
  | c :: _ => !(c = 'e' || c = 'E')
  | [] => true

/-- Parses a JSON number without exponent into the exact rational the
float64 would denote (claims never involve values where float64 rounding
differs). -/
def parseNumber (cs : List Char) : Option (Rat × List Char) :=
  let neg : Bool := cs.head? = some '-'
  let cs1 : List Char := if neg then cs.tail else cs
  let ds := cs1.takeWhile Char.isDigit
  let rest1 := cs1.dropWhile Char.isDigit
  if ds.isEmpty then none
  else
    let ipart : Rat := ((digitsToNat ds : Int) : Rat)
    match rest1 with
    | '.' :: r2 =>
      let fs := r2.takeWhile Char.isDigit
      let rest2 := r2.dropWhile Char.isDigit
      if fs.isEmpty || !(noExponentNext rest2) then none
      else
        let v : Rat := ipart + ((digitsToNat fs : Int) : Rat) / ((10 : Rat) ^ fs.length)
        some (if neg then -v else v, rest2)
    | _ =>
      if noExponentNext rest1 then some (if neg then -ipart else ipart, rest1) else none

/-- Strips an expected literal tail such as `rue` of `true`. -/
def stripLit (lit : List Char) (cs : List Char) : Option (List Char) :=
  match lit, cs with
  | [], rest => some rest
  | l :: ls, c :: rest => if c = l then stripLit ls rest else none
  | _ :: _, [] => none

mutual

/-- Parses one JSON value; the fuel only bounds recursion depth. -/
def parseVal : Nat → List Char → Option (Value × List Char)
  | 0, _ => none
  | fuel + 1, cs =>
    match skipWs cs with
    | [] => none
    | c :: rest =>
      if c = '"' then
        match parseJsonString rest with
        | some (s, r) => some (.str (String.mk s), r)
        | none => none
      else if c = Char.ofNat 123 then parseObjFields fuel rest []
      else if c = '[' then parseArrElems fuel rest []
      else if c = 't' then
        match stripLit ['r', 'u', 'e'] rest with
        | some r => some (.bool true, r)
        | none => none
      else if c = 'f' then
        match stripLit ['a', 'l', 's', 'e'] rest with
        | some r => some (.bool false, r)
        | none => none
      else if c = 'n' then
        match stripLit ['u', 'l', 'l'] rest with
        | some r => some (.null, r)
        | none => none
      else if c = '-' || c.isDigit then
        match parseNumber (c :: rest) with
        | some (q, r) => some (.num q, r)
        | none => none
      else none

/-- Parses the elements of a JSON array after the opening bracket. -/
def parseArrElems : Nat → List Char → List Value → Option (Value × List Char)
  | 0, _, _ => none
  | fuel + 1, cs, acc =>
    match skipWs cs with
    | [] => none
    | c :: rest =>
      if c = ']' && acc.isEmpty then some (.arr [], rest)
      else
        match parseVal fuel (c :: rest) with
        | none => none
        | some (v, r1) =>
          match skipWs r1 with
          | ',' :: r2 => parseArrElems fuel r2 (acc ++ [v])
          | ']' :: r2 => some (.arr (acc ++ [v]), r2)
          | _ => none

/-- Parses the members of a JSON object after the opening brace. -/
def parseObjFields : Nat → List Char → List (String × Value) → Option (Value × List Char)
  | 0, _, _ => none
  | fuel + 1, cs, acc =>
    match skipWs cs with
    | [] => none
    | c :: rest =>
      if c = Char.ofNat 125 && acc.isEmpty then some (.obj [], rest)
      else if c = '"' then
        match parseJsonString rest with
        | none => none
        | some (key, r1) =>
          match skipWs r1 with
          | ':' :: r2 =>
            match parseVal fuel r2 with
            | none => none
            | some (v, r3) =>
              match skipWs r3 with
              | ',' :: r4 => parseObjFields fuel r4 (acc ++ [(String.mk key, v)])
              | d :: r4 =>
                if d = Char.ofNat 125 then some (.obj (acc ++ [(String.mk key, v)]), r4)
                else none
              | [] => none
          | _ => none
      else none

end

/-- Parses a complete JSON document (no trailing content). -/
def jsonDecodeValue (s : String) : Option Value :=
  match parseVal (2 * s.length + 4) s.toList with
  | some (v, rest) => if (skipWs rest).isEmpty then some v else none
  | none => none

/-- `json.Unmarshal([]byte(s), appliedServiceUnstructured)` with target
`*map[string]interface{}`: the document must be a JSON object. -/
def jsonUnmarshalObj (s : String) : Except String (List (String × Value)) :=
  match jsonDecodeValue s with
  | some (.obj fs) => .ok fs
  | some _ => .error "json: cannot unmarshal value into map"
  | none => .error "invalid character in JSON document"

/-- `unstructured.NestedSlice(m, fields...)`: traversal errors and a found
non-slice value are errors, absence is tolerated. -/
def nestedSlice (m : List (String × Value)) (fields : List String) : Except String (Option (List Value)) :=
  match nestedField (.obj m) fields with
  | .fieldErr msg => .error msg
  | .absent => .ok none
  | .found v =>
    match v with
    | .arr xs => .ok (some xs)
    | _ => .error "expected slice value"

/-- The formatted path `fmt.Sprintf(updateNodePortString, i)`. -/
def nodePortPath (i : Nat) : String :=
  "/spec/ports/" ++ toString i ++ "/nodePort"

/-- The loop over the last-applied configuration's ports building
`explicitNodePorts` (a string set) and `unnamedPortInts` (an int set),
modelled as lists observed only through membership. A non-map port is
skipped; a positive nodePort with a `name` key inserts `portName.(string)`
— an unchecked type assertion that panics when the name is not a string. -/
def appliedPortsLoop (ports : List Value) (explicitNodePorts : List String)
    (unnamedPortInts : List Int) : Res (List String × List Int) :=
  match ports with
  | [] => .ok (explicitNodePorts, unnamedPortInts)
  | port :: rest =>
    match port with
    | .obj p =>
      match nestedField (.obj p) ["nodePort"] with
      | .fieldErr m => .err (explicitNodePorts, unnamedPortInts) m
      | .absent => appliedPortsLoop rest explicitNodePorts unnamedPortInts
      | .found nodePort =>
        match getNodePortInt nodePort with
        | .error m => .err (explicitNodePorts, unnamedPortInts) m
        | .ok nodePortInt =>
          if 0 < nodePortInt then
            match lookupField p "name" with
            | none => appliedPortsLoop rest explicitNodePorts (nodePortInt :: unnamedPortInts)
            | some portName =>
              match portName with
              | .str s => appliedPortsLoop rest (s :: explicitNodePorts) unnamedPortInts
              | _ => .panicked
          else appliedPortsLoop rest explicitNodePorts unnamedPortInts
    | _ => appliedPortsLoop rest explicitNodePorts unnamedPortInts

/-- The loop over the live `spec.ports` at index `i`: skip non-map ports,
absent or zero nodePorts; a nodePort whose normalization errors aborts
with the patch accumulated so far; otherwise remove the nodePort unless
its name (or, unnamed, its integer value) was explicit in the snapshot. -/
def livePortsLoop (explicitNodePorts : List String) (unnamedPortInts : List Int)
    (i : Nat) (ports : List Value) : Res (List PatchOp) :=
  match ports with
  | [] => .ok []
  | portInterface :: rest =>
    match portInterface with
    | .obj port =>
      let nameStr : String :=
        match lookupField port "name" with
        | some (.str s) => s
        | _ => ""
      match lookupField port "nodePort" with
      | none => livePortsLoop explicitNodePorts unnamedPortInts (i + 1) rest
      | some nodePort =>
        match getNodePortInt nodePort with
        | .error m => .err [] m
        | .ok nodePortInt =>
          if nodePortInt = 0 then livePortsLoop explicitNodePorts unnamedPortInts (i + 1) rest
          else
            let removeNodePort : Bool :=
              if 0 < nameStr.length then !(explicitNodePorts.contains nameStr)
              else !(unnamedPortInts.contains nodePortInt)
            if removeNodePort then
              match livePortsLoop explicitNodePorts unnamedPortInts (i + 1) rest with
              | .ok ps => .ok (.remove (nodePortPath i) :: ps)
              | .err ps m => .err (.remove (nodePortPath i) :: ps) m
              | .panicked => .panicked
            else livePortsLoop explicitNodePorts unnamedPortInts (i + 1) rest
    | _ => livePortsLoop explicitNodePorts unnamedPortInts (i + 1) rest

/-- The annotation key consulted by the node-port reconciler. -/
def lastAppliedKey : String := "kubectl.kubernetes.io/last-applied-configuration"

/-- `getNodePortPatch`. -/
def getNodePortPatch (u : Obj) : Res (List PatchOp) :=
  match lookupField u "spec" with
  | none => .ok []
  | some spec =>
    match spec with
    | .obj specMap =>
      match lookupField specMap "type" with
      | none => .ok []
      | some serviceType =>
        if serviceType.eqString "ExternalName" then .ok []
        else
          match lookupField specMap "ports" with
          | none => .ok []
          | some servicePorts =>
            match servicePorts with
            | .arr portsSlice =>
              match lookupString (getAnnotations u) lastAppliedKey with
              | none => livePortsLoop [] [] 0 portsSlice
              | some lastAppliedConfig =>
                match jsonUnmarshalObj lastAppliedConfig with
                | .error m => .err [] m
                | .ok applied =>
                  match nestedSlice applied ["spec", "ports"] with
                  | .error m => .err [] m
                  | .ok none => livePortsLoop [] [] 0 portsSlice
                  | .ok (some ports) =>
                    match appliedPortsLoop ports [] [] with
                    | .panicked => .panicked
                    | .err _ m => .err [] m
                    | .ok (explicitNodePorts, unnamedPortInts) =>
                      livePortsLoop explicitNodePorts unnamedPortInts 0 portsSlice
            | _ => .ok []
    | _ => .ok []

/-- `removeServiceFields`: three conditional removes, then the node-port
patch; a node-port error discards everything (`return nil, err`). -/
def removeServiceFields (u : Obj) : Res (List PatchOp) :=
  let head : List PatchOp :=
    (if isLoadBalancerService u then [.remove "/spec/externalIPs"] else [])
      ++ (if shouldRemoveServiceClusterIP u then [.remove "/spec/clusterIP"] else [])
      ++ (if shouldRemoveServiceClusterIPs u then [.remove "/spec/clusterIPs"] else [])
  match getNodePortPatch u with
  | .ok ps => .ok (head ++ ps)
  | .err _ m => .err [] m
  | .panicked => .panicked

/-! ### Image registry rewriting

`obj.MarshalJSON()` followed by `json.Unmarshal` into a typed `v1.Pod`
round-trips the tree; the plugin then only reads
`pod.Spec.Containers[i].Image` and `pod.Spec.InitContainers[i].Image`.
The extraction below models exactly that projection: absent fields decode
to zero values, shape mismatches are decode errors. -/

/-- The image of one typed container decoded from its map. -/
def imageOfContainer (x : Value) : Except String String :=
  match x with
  | .obj m =>
    match lookupField m "image" with
    | some (.str s) => .ok s
    | some .null => .ok ""
    | none => .ok ""
    | some _ => .error "json: cannot unmarshal container image"
  | _ => .error "json: cannot unmarshal container"

/-- Decodes every container image in a slice. -/
def imagesOfList (xs : List Value) : Except String (List String) :=
  match xs with
  | [] => .ok []
  | x :: rest =>
    match imageOfContainer x with
    | .error m => .error m
    | .ok img =>
      match imagesOfList rest with
      | .error m => .error m
      | .ok imgs => .ok (img :: imgs)

/-- The images of `pod.Spec.Containers` (`key = "containers"`) or
`pod.Spec.InitContainers` (`key = "initContainers"`) after the typed
decode of the resource. -/
def podImages (u : Obj) (key : String) : Except String (List String) :=
  match nestedField (.obj u) ["spec", key] with
  | .fieldErr m => .error m
  | .absent => .ok []
  | .found .null => .ok []
  | .found (.arr xs) => imagesOfList xs
  | .found _ => .error "json: cannot unmarshal containers"

/-- Modelled from the spec: the images of the pod template's containers as
`types.IsPodSpecable` (not among the provided sources) hands them back in
its typed `PodTemplateSpec`: the template lives at `spec.template`, so the
container images sit at `spec.template.spec.<key>[i].image`; a container
whose image is missing or not a string contributes the zero value. -/
def templateImages (u : Obj) (key : String) : List String :=
  match nestedField (.obj u) ["spec", "template", "spec", key] with
  | .found (.arr xs) =>
    xs.map (fun x =>
      match x with
      | .obj m =>
        match lookupField m "image" with
        | some (.str s) => s
        | _ => ""
      | _ => "")
  | _ => []

/-- Modelled from the spec: `util.UpdateImageRegistry` (package
`transform/util`, not among the provided sources) matches the image
against each old-prefix key by plain string-prefix equality and, on a
match, replaces just the matched prefix, preserving the repository path
and tag verbatim; no match means no rewrite. -/
def updateImageRegistry (repl : List (String × String)) (image : String) : Option String :=
  match repl with
  | [] => none
  | (oldReg, newReg) :: rest =>
    if oldReg.isPrefixOf image then some (newReg ++ String.drop image oldReg.length)
    else updateImageRegistry rest image

/-- Modelled from the spec: `util.UpdateImage` (package `transform/util`,
not among the provided sources) emits one replace-style operation at the
container's indexed image path. The loop `for i, container := range ...`
emits it exactly for the indices whose image was rewritten. -/
def imageUpdateOps (repl : List (String × String)) (pathOf : Nat → String) :
    Nat → List String → List PatchOp
  | _, [] => []
  | i, img :: rest =>
    match updateImageRegistry repl img with
    | some updated => .replace (pathOf i) (.str updated) :: imageUpdateOps repl pathOf (i + 1) rest
    | none => imageUpdateOps repl pathOf (i + 1) rest

/-- `fmt.Sprintf(podContainerImageUpdate, i)`. -/
def podContainerPath (i : Nat) : String := "/spec/containers/" ++ toString i ++ "/image"

/-- `fmt.Sprintf(podInitContainerImageUpdate, i)`. -/
def podInitContainerPath (i : Nat) : String := "/spec/initContainers/" ++ toString i ++ "/image"

/-- `fmt.Sprintf(containerImageUpdate, i)`. -/
def templateContainerPath (i : Nat) : String := "/spec/template/spec/containers/" ++ toString i ++ "/image"

/-- `fmt.Sprintf(initContainerImageUpdate, i)`. -/
def templateInitContainerPath (i : Nat) : String := "/spec/template/spec/initContainers/" ++ toString i ++ "/image"

/-- The registry-replacement generator: the bare-Pod branch decodes the
typed pod and walks both container slices; otherwise a pod-template
bearing resource walks the template's slices; other shapes do nothing. -/
def registryOps (k : KubernetesTransformPlugin) (u : Obj) : Res (List PatchOp) :=
  if groupKind u = podGK then
    match podImages u "containers" with
    | .error m => .err [] m
    | .ok images =>
      match podImages u "initContainers" with
      | .error m => .err [] m
      | .ok initImages =>
        .ok (imageUpdateOps k.registryReplacement podContainerPath 0 images
          ++ imageUpdateOps k.registryReplacement podInitContainerPath 0 initImages)
  else if isPodSpecable u then
    .ok (imageUpdateOps k.registryReplacement templateContainerPath 0 (templateImages u "containers")
      ++ imageUpdateOps k.registryReplacement templateInitContainerPath 0 (templateImages u "initContainers"))
  else .ok []

/-- One sequencing step of `getKubernetesTransforms`: on success append
the generator's patches to the accumulator and continue, on a generator
error return `nil, err` discarding everything, and let a panic unwind. -/
def stage (acc : List PatchOp) (r : Res (List PatchOp))
    (cont : List PatchOp → Res (List PatchOp)) : Res (List PatchOp) :=
  match r with
  | .ok ps => cont (acc ++ ps)
  | .err _ m => .err [] m
  | .panicked => .panicked

/-- `getKubernetesTransforms`: the fixed generator order of the source —
field stripping, annotation adds, annotation removes, pod-field removes,
image rewriting, service sanitizing — with every error path returning
`nil, err`. -/
def getKubernetesTransforms (k : KubernetesTransformPlugin) (u : Obj) : Res (List PatchOp) :=
  stage [] (stripFields u) (fun acc1 =>
  stage acc1 (if 0 < k.addAnnotations.length then addAnnotationsOps k.addAnnotations else .ok []) (fun acc2 =>
  stage acc2 (if 0 < k.removeAnnotations.length then removeAnnotationsOps k.removeAnnotations else .ok []) (fun acc3 =>
  stage acc3 (if groupKind u = podGK then removePodFields else .ok []) (fun acc4 =>
  stage acc4 (if 0 < k.registryReplacement.length then registryOps k u else .ok []) (fun acc5 =>
  stage acc5 (if groupKind u = serviceGK then removeServiceFields u else .ok []) (fun acc6 =>
  .ok acc6))))))

/-- `transform.PluginResponse` restricted to the fields Run sets. -/
structure PluginResponse where
  version : String
  isWhiteOut : Bool
  patches : List PatchOp

/-- Modelled from the spec: `transform.V1`, the response version constant
(package `transform`, not among the provided sources); its concrete
content is irrelevant to every claim. -/
def versionV1 : String := "v1"

/-- What an invocation of `Run` does: return a `(response, error)` pair,
or panic. -/
inductive RunResult where
  | returns (resp : PluginResponse) (err : Option String) : RunResult
  | panics : RunResult

/-- `(k *KubernetesTransformPlugin) Run` on a resolved configuration: a
whiteout short-circuits with no patches; otherwise the synthesized patches
and error are returned together (`resp.Patches, err = ...; return resp,
err`). -/
def Run (k : KubernetesTransformPlugin) (u : Obj) : RunResult :=
  if getWhiteOuts k u then
    .returns { version := versionV1, isWhiteOut := true, patches := [] } none
  else
    match getKubernetesTransforms k u with
    | .ok ps => .returns { version := versionV1, isWhiteOut := false, patches := ps } none
    | .err ps m => .returns { version := versionV1, isWhiteOut := false, patches := ps } (some m)
    | .panicked => .panics

/-! ### Concrete resources and configurations used by the theorems -/

/-- A controller-owned bare Pod. -/
def ownedPod : Obj :=
  [("apiVersion", .str "v1"), ("kind", .str "Pod"),
   ("metadata", .obj [("ownerReferences", .arr [.obj [("name", .str "rs")]])])]

/-- A configuration whose include-only list contains the Pod GroupKind. -/
def includePodCfg : KubernetesTransformPlugin :=
  { defaultPlugin with includeOnly := [podGK] }

/-- A bare Pod carrying no `spec` at all. -/
def bareMinimalPod : Obj :=
  [("apiVersion", .str "v1"), ("kind", .str "Pod")]

/-- A configuration whose include-only list contains only the Service
GroupKind. -/
def includeSvcCfg : KubernetesTransformPlugin :=
  { defaultPlugin with includeOnly := [serviceGK] }

/-- A NodePort service whose first live port has an unparseable string
nodePort and whose second has a positive integer one; no
last-applied-configuration annotation. -/
def mixedPortsSvc : Obj :=
  [("apiVersion", .str "v1"), ("kind", .str "Service"),
   ("spec", .obj [("type", .str "NodePort"),
                  ("ports", .arr [.obj [("nodePort", .str "abc")],
                                  .obj [("nodePort", .int 30080)]])])]

/-- A NodePort service with one named and one unnamed positive live
nodePort and no last-applied-configuration annotation. -/
def livePortsSvc : Obj :=
  [("apiVersion", .str "v1"), ("kind", .str "Service"),
   ("spec", .obj [("type", .str "NodePort"),
                  ("ports", .arr [.obj [("name", .str "http"), ("nodePort", .int 30080)],
                                  .obj [("nodePort", .int 31000)]])])]

/-- A service whose synthesis errors after the field stripper already
produced a remove for the present `status`. -/
def errorAfterStripSvc : Obj :=
  [("apiVersion", .str "v1"), ("kind", .str "Service"),
   ("status", .obj []),
   ("spec", .obj [("type", .str "NodePort"),
                  ("ports", .arr [.obj [("nodePort", .str "abc")]])])]

/-- A resource with two of the strippable metadata fields and a status. -/
def metaStatusRes : Obj :=
  [("metadata", .obj [("uid", .str "x"), ("generation", .int 3)]),
   ("status", .obj [])]

/-- A last-applied-configuration document whose single port has a
non-string name next to a positive nodePort. -/
def nonStringNameAnno : String :=
  "\x7b\"spec\":\x7b\"ports\":[\x7b\"name\":5,\"nodePort\":30080\x7d]\x7d\x7d"

/-- A NodePort service whose last-applied-configuration annotation parses
to a port list with a positive nodePort and a numeric `name`. -/
def nonStringNameSvc : Obj :=
  [("apiVersion", .str "v1"), ("kind", .str "Service"),
   ("metadata", .obj [("annotations", .obj [(lastAppliedKey, .str nonStringNameAnno)])]),
   ("spec", .obj [("type", .str "NodePort"),
                  ("ports", .arr [.obj [("nodePort", .int 31000)]])])]

/-- A service whose `spec` has ports but no `type` field. -/
def typelessSvc : Obj :=
  [("apiVersion", .str "v1"), ("kind", .str "Service"),
   ("spec", .obj [("ports", .arr [.obj [("nodePort", .int 31000)]])])]

/-- A service with a headful clusterIP and a clusterIPs list. -/
def clusterIPSvc : Obj :=
  [("apiVersion", .str "v1"), ("kind", .str "Service"),
   ("spec", .obj [("type", .str "ClusterIP"),
                  ("clusterIP", .str "10.0.0.1"),
                  ("clusterIPs", .arr [.str "10.0.0.1"])])]

/-- The three unconditional pod-field removes. -/
def podFieldsPatches : List PatchOp :=
  [.remove "/spec/nodeName", .remove "/spec/nodeSelector", .remove "/spec/priority"]

/-- Whether the live port's nodePort (if the port is a map carrying one)
normalizes without a hard error. -/
def portNormalizes (p : Value) : Bool :=
  match p with
  | .obj pm =>
    match lookupField pm "nodePort" with
    | some v =>
      match getNodePortInt v with
      | .ok _ => true
      | .error _ => false
    | none => true
  | _ => true

/-! ### Supporting lemmas -/

/-- The Go interface comparison against a string constant agrees with
propositional equality with the corresponding `Value.str`. -/
theorem Value.eqString_eq_true_iff (v : Value) (s : String) :
    v.eqString s = true ↔ v = .str s := by
  cases v <;> simp [Value.eqString]

/-! ### Claim theorems -/

/-- C2 (code bug): `getNodePortInt` hard-errors exactly on unparseable
strings and normalizes the integer kinds and floats, but on a numeric
string the parsed value is assigned to a shadowing local, so the function
returns 0 instead of the integer the string denotes — here `"30080"`
yields 0, not 30080, contradicting the claim. -/
theorem getNodePortInt_string_shadow_bug :
    getNodePortInt (Value.str "30080") = .ok 0
    ∧ getNodePortInt (Value.int 30080) = .ok 30080
    ∧ getNodePortInt (Value.int32 30080) = .ok 30080
    ∧ getNodePortInt (Value.int64 30080) = .ok 30080
    ∧ getNodePortInt (Value.num 30080) = .ok 30080
    ∧ getNodePortInt (Value.num (-7 / 2)) = .ok (-3)
    ∧ getNodePortInt (Value.str "abc") = .error "parsing abc: invalid syntax" := by
  refine ⟨rfl, rfl, rfl, rfl, rfl, ?_, rfl⟩
  with_unfolding_all rfl

/-- C9 (code bug): on a Service whose last-applied-configuration
annotation decodes to a port with a positive nodePort and a numeric
`name`, `Run` does not return a `(response, error)` pair — the unchecked
type assertion `portName.(string)` panics, contradicting the claim that
`Run` always terminates with a pair. -/
theorem run_panics_on_nonstring_port_name :
    Run defaultPlugin nonStringNameSvc = .panics := by
  with_unfolding_all rfl

/-- C10: a Service whose `spec.type` field is absent (whether the spec map
lacks the key, the spec is not a map, or there is no spec at all) makes
the node-port reconciler emit no operations and no error, even with
positive live nodePorts and no snapshot annotation. -/
theorem type_absent_no_nodePort_ops :
    (∀ (u : Obj) (specMap : List (String × Value)),
      lookupField u "spec" = some (.obj specMap) →
      lookupField specMap "type" = none →
      getNodePortPatch u = .ok [])
    ∧ (∀ u : Obj, lookupField u "spec" = none → getNodePortPatch u = .ok []) := by
  constructor
  · intro u specMap h1 h2
    simp [getNodePortPatch, h1, h2]
  · intro u h1
    simp [getNodePortPatch, h1]

/-- C10 witness: the typeless service with a positive live nodePort gets
no operations. -/
theorem type_absent_no_nodePort_ops_witness :
    getNodePortPatch typelessSvc = .ok [] :=
  type_absent_no_nodePort_ops.1 typelessSvc
    [("ports", .arr [.obj [("nodePort", .int 31000)]])] rfl rfl

/-- C5: a whiteout decision always comes with an empty patch list — `Run`
short-circuits before any synthesis — and with non-empty includeOnly and a
GroupKind outside it the response is exactly the whiteout with no patches
and no error. -/
theorem run_whiteout_empty_patches :
    (∀ (k : KubernetesTransformPlugin) (u : Obj) (resp : PluginResponse) (e : Option String),
      Run k u = .returns resp e → resp.isWhiteOut = true → resp.patches = [])
    ∧ (∀ (k : KubernetesTransformPlugin) (u : Obj),
      0 < k.includeOnly.length → groupKindInList (groupKind u) k.includeOnly = false →
      Run k u = .returns { version := versionV1, isWhiteOut := true, patches := [] } none) := by
  constructor
  · intro k u resp e h hw
    unfold Run at h
    by_cases hwo : getWhiteOuts k u = true
    · simp only [hwo, if_true] at h
      cases h
      rfl
    · simp only [hwo, if_false] at h
      cases hk : getKubernetesTransforms k u <;> rw [hk] at h <;> cases h <;> exact absurd hw (by simp)
  · intro k u h1 h2
    have hwo : getWhiteOuts k u = true := by
      simp [getWhiteOuts, h1, h2]
    simp [Run, hwo]

/-- C5 witness: a Pod against an include-only list holding only Service
is whited out with no patches. -/
theorem run_whiteout_empty_patches_witness :
    Run includeSvcCfg bareMinimalPod
      = .returns { version := versionV1, isWhiteOut := true, patches := [] } none :=
  run_whiteout_empty_patches.2 includeSvcCfg bareMinimalPod (by decide)
    (by with_unfolding_all rfl)

/-- C1 counterexample: with includeOnly = [Pod] and a controller-owned
bare Pod, the GroupKind is in includeOnly yet `getWhiteOuts` returns true
— the owned-resource rule still applies after the include filter, so the
claim's unconditional `isWhiteout = false` is wrong. -/
theorem includeOnly_member_whiteout_counterexample :
    (0 < includePodCfg.includeOnly.length
      ∧ groupKindInList (groupKind ownedPod) includePodCfg.includeOnly = true)
    ∧ getWhiteOuts includePodCfg ownedPod = true :=
  ⟨⟨by decide, by with_unfolding_all rfl⟩, by with_unfolding_all rfl⟩

/-- C1 amended: with non-empty includeOnly and GroupKind ∈ includeOnly,
neither extraWhiteouts nor the built-in blocklist affects the result — the
decision reduces to the owned-resource rule alone, so it is false unless
the resource is a bare Pod or pod-template bearing, carries an owner
reference, and disableWhiteoutOwned is off. -/
theorem includeOnly_member_only_owned_rule :
    ∀ (k : KubernetesTransformPlugin) (u : Obj) (ew : List GroupKind),
      0 < k.includeOnly.length →
      groupKindInList (groupKind u) k.includeOnly = true →
      getWhiteOuts { k with extraWhiteouts := ew } u = getWhiteOuts k u
      ∧ getWhiteOuts k u = whiteoutOwned k u
      ∧ (getWhiteOuts k u = true →
          k.disableWhiteoutOwned = false
          ∧ (groupKind u = podGK ∨ isPodSpecable u = true)
          ∧ 0 < ownerReferencesCount u) := by
  intro k u ew h1 h2
  have he : getWhiteOuts k u = whiteoutOwned k u := by
    simp [getWhiteOuts, h1, h2]
  have he2 : getWhiteOuts { k with extraWhiteouts := ew } u
      = whiteoutOwned { k with extraWhiteouts := ew } u := by
    simp [getWhiteOuts, h1, h2]
  have he3 : whiteoutOwned { k with extraWhiteouts := ew } u = whiteoutOwned k u := rfl
  refine ⟨by rw [he2, he3, he], he, ?_⟩
  intro ht
  rw [he] at ht
  unfold whiteoutOwned at ht
  by_cases hd : k.disableWhiteoutOwned = true
  · simp [hd] at ht
  · simp only [Bool.not_eq_true] at hd
    refine ⟨hd, ?_⟩
    rw [if_neg (by simp [hd])] at ht
    by_cases hc : (groupKind u = podGK ∨ isPodSpecable u = true) ∧ 0 < ownerReferencesCount u
    · exact hc
    · simp [hc] at ht

/-- C1 amended witness: instantiated at the owned Pod with an extra
whiteout list holding Service. -/
theorem includeOnly_member_only_owned_rule_witness :
    (getWhiteOuts { includePodCfg with extraWhiteouts := [serviceGK] } ownedPod
        = getWhiteOuts includePodCfg ownedPod)
    ∧ getWhiteOuts includePodCfg ownedPod = whiteoutOwned includePodCfg ownedPod
    ∧ (includePodCfg.disableWhiteoutOwned = false
        ∧ (groupKind ownedPod = podGK ∨ isPodSpecable ownedPod = true)
        ∧ 0 < ownerReferencesCount ownedPod) := by
  have T := includeOnly_member_only_owned_rule includePodCfg ownedPod [serviceGK]
    (by decide) (by with_unfolding_all rfl)
  exact ⟨T.1, T.2.1, T.2.2 (by with_unfolding_all rfl)⟩

/-- Any error escaping a `stage` step carries the empty patch list,
provided the continuation's errors do. -/
theorem stage_err_nil (acc : List PatchOp) (r : Res (List PatchOp))
    (cont : List PatchOp → Res (List PatchOp))
    (hc : ∀ acc' ps m, cont acc' = .err ps m → ps = []) :
    ∀ ps m, stage acc r cont = .err ps m → ps = [] := by
  intro ps m h
  unfold stage at h
  cases r with
  | ok a => exact hc _ ps m h
  | err a msg => injection h with h1 h2; exact h1.symm
  | panicked => exact Res.noConfusion h

/-- C6: a generator error during synthesis makes the whole invocation
return that error with the empty patch list — patches from earlier
generators of the same invocation are discarded. -/
theorem generator_error_discards_patches :
    ∀ (k : KubernetesTransformPlugin) (u : Obj) (ps : List PatchOp) (m : String),
      getKubernetesTransforms k u = .err ps m →
      ps = []
      ∧ (getWhiteOuts k u = false →
          Run k u = .returns { version := versionV1, isWhiteOut := false, patches := [] } (some m)) := by
  intro k u ps m h
  have hnil : ps = [] := by
    revert h
    unfold getKubernetesTransforms
    refine stage_err_nil _ _ _ ?_ ps m
    intro a1 ps m h
    revert h; refine stage_err_nil _ _ _ ?_ ps m
    intro a2 ps m h
    revert h; refine stage_err_nil _ _ _ ?_ ps m
    intro a3 ps m h
    revert h; refine stage_err_nil _ _ _ ?_ ps m
    intro a4 ps m h
    revert h; refine stage_err_nil _ _ _ ?_ ps m
    intro a5 ps m h
    revert h; refine stage_err_nil _ _ _ ?_ ps m
    intro a6 ps m h
    exact Res.noConfusion h
  subst hnil
  refine ⟨rfl, fun hwo => ?_⟩
  simp [Run, hwo, h]

/-- C6 witness: on the service whose field stripper already produced a
remove for the present `status`, the node-port parse error yields an error
response with no patches at all. -/
theorem generator_error_discards_patches_witness :
    stripFields errorAfterStripSvc = .ok [.remove "/status"]
    ∧ ([] : List PatchOp) = []
    ∧ Run defaultPlugin errorAfterStripSvc
        = .returns { version := versionV1, isWhiteOut := false, patches := [] }
            (some "parsing abc: invalid syntax") := by
  have T := generator_error_discards_patches defaultPlugin errorAfterStripSvc []
    "parsing abc: invalid syntax" (by with_unfolding_all rfl)
  exact ⟨by with_unfolding_all rfl, T.1, T.2 (by with_unfolding_all rfl)⟩

/-- The strip loop over traversable paths emits exactly one remove per
present path, in list order. -/
theorem stripFieldsAux_ok (u : Obj) (fields : List (List String))
    (h : ∀ f ∈ fields, (nestedField (.obj u) f).isErr = false) :
    stripFieldsAux u fields
      = .ok ((fields.filter (fun f => nestedPresent u f)).map (fun f => .remove (pathString f))) := by
  induction fields with
  | nil => rfl
  | cons f rest ih =>
    have hf := h f (List.mem_cons_self f rest)
    have hrest := fun g hg => h g (List.mem_cons_of_mem f hg)
    simp only [stripFieldsAux]
    cases hn : nestedField (.obj u) f with
    | fieldErr m => rw [hn] at hf; simp [Nested.isErr] at hf
    | absent =>
      rw [ih hrest]
      simp [List.filter_cons, nestedPresent, hn, Nested.isFound]
    | found v =>
      rw [ih hrest]
      simp [List.filter_cons, nestedPresent, hn, Nested.isFound]

/-- C7: when every strippable path traverses without a type error (absent
intermediate containers included), the field stripper emits exactly the
removes of the present paths of the fixed list, in list order; on a
resource where none is present it emits zero operations, so re-running it
on a stripped resource is a no-op. -/
theorem stripFields_exactly_present :
    ∀ u : Obj,
      (∀ f ∈ fieldsToStrip, (nestedField (Value.obj u) f).isErr = false) →
      stripFields u
        = .ok ((fieldsToStrip.filter (fun f => nestedPresent u f)).map (fun f => .remove (pathString f)))
      ∧ ((∀ f ∈ fieldsToStrip, nestedPresent u f = false) → stripFields u = .ok []) := by
  intro u h
  have h1 := stripFieldsAux_ok u fieldsToStrip h
  refine ⟨h1, fun hnone => ?_⟩
  rw [stripFields, h1]
  have hfil : fieldsToStrip.filter (fun f => nestedPresent u f) = [] := by
    rw [List.filter_eq_nil_iff]
    intro a ha
    simp [hnone a ha]
  rw [hfil]
  rfl

/-- C7 witness: two present metadata fields and a status are stripped in
list order; the resource with none of the paths gets zero operations. -/
theorem stripFields_exactly_present_witness :
    stripFields metaStatusRes
      = .ok [.remove "/metadata/uid", .remove "/metadata/generation", .remove "/status"]
    ∧ stripFields bareMinimalPod = .ok [] := by
  have T1 := (stripFields_exactly_present metaStatusRes (by decide)).1
  have T2 := (stripFields_exactly_present bareMinimalPod (by decide)).2 (by decide)
  refine ⟨?_, T2⟩
  rw [T1]
  with_unfolding_all rfl

/-- Go string comparison against a constant, negatively. -/
theorem Value.eqString_eq_false_iff (v : Value) (s : String) :
    v.eqString s = false ↔ v ≠ .str s := by
  have h := Value.eqString_eq_true_iff v s
  cases hb : v.eqString s
  · simp only [hb, Bool.false_eq_true, false_iff] at h
    simpa using h
  · simp only [hb, true_iff] at h
    simp [h]

/-- Characterization of `shouldRemoveServiceClusterIP` by the shape of the
resource. -/
theorem shouldRemoveServiceClusterIP_iff (u : Obj) :
    shouldRemoveServiceClusterIP u = true
      ↔ ∃ specMap v, lookupField u "spec" = some (.obj specMap)
          ∧ lookupField specMap "clusterIP" = some v ∧ v ≠ .str "None" := by
  unfold shouldRemoveServiceClusterIP
  cases hs : lookupField u "spec" with
  | none => simp
  | some spec =>
    cases spec with
    | obj specMap =>
      cases hc : lookupField specMap "clusterIP" with
      | none => simp [hc]
      | some v => simp [hc, Bool.not_eq_true', Value.eqString_eq_false_iff]
    | null => simp
    | bool b => simp
    | int n => simp
    | int32 n => simp
    | int64 n => simp
    | num q => simp
    | str s => simp
    | arr xs => simp

/-- Characterization of `shouldRemoveServiceClusterIPs` by the shape of
the resource. -/
theorem shouldRemoveServiceClusterIPs_iff (u : Obj) :
    shouldRemoveServiceClusterIPs u = true
      ↔ ∃ specMap v, lookupField u "spec" = some (.obj specMap)
          ∧ lookupField specMap "clusterIPs" = some v
          ∧ ((∀ xs, v ≠ .arr xs) ∨ v = .arr []
              ∨ ∃ x xs, v = .arr (x :: xs) ∧ x ≠ .str "None") := by
  unfold shouldRemoveServiceClusterIPs
  cases hs : lookupField u "spec" with
  | none => simp
  | some spec =>
    cases spec with
    | obj specMap =>
      cases hc : lookupField specMap "clusterIPs" with
      | none => simp [hc]
      | some v =>
        cases v with
        | arr xs =>
          cases xs with
          | nil => simp [hc]
          | cons x rest =>
            simp [hc, Bool.not_eq_true', Value.eqString_eq_false_iff]
        | null => simp [hc]
        | bool b => simp [hc]
        | int n => simp [hc]
        | int32 n => simp [hc]
        | int64 n => simp [hc]
        | num q => simp [hc]
        | str s => simp [hc]
        | obj fs => simp [hc]
    | null => simp
    | bool b => simp
    | int n => simp
    | int32 n => simp
    | int64 n => simp
    | num q => simp
    | str s => simp
    | arr xs => simp

/-- Every patch the live node-port loop emits on success is a remove at a
formatted node-port path. -/
theorem livePortsLoop_ok_shape :
    ∀ (e : List String) (un : List Int) (i : Nat) (ports : List Value) (ps : List PatchOp),
      livePortsLoop e un i ports = .ok ps →
      ∀ op ∈ ps, ∃ j, op = .remove (nodePortPath j) := by
  intro e un i ports
  induction ports generalizing i with
  | nil =>
    intro ps h op hop
    simp only [livePortsLoop] at h
    injection h with h1
    subst h1
    cases hop
  | cons x rest ih =>
    intro ps h op hop
    cases x with
    | obj port =>
      simp only [livePortsLoop] at h
      repeat' split at h
      all_goals first
        | exact Res.noConfusion h
        | exact ih _ _ h op hop
        | (injection h with h1; subst h1;
           cases hop with
           | head => exact ⟨i, rfl⟩
           | tail _ hmem => exact ih _ _ (by assumption) op hmem)
    | null => simp only [livePortsLoop] at h; exact ih _ _ h op hop
    | bool b => simp only [livePortsLoop] at h; exact ih _ _ h op hop
    | int n => simp only [livePortsLoop] at h; exact ih _ _ h op hop
    | int32 n => simp only [livePortsLoop] at h; exact ih _ _ h op hop
    | int64 n => simp only [livePortsLoop] at h; exact ih _ _ h op hop
    | num q => simp only [livePortsLoop] at h; exact ih _ _ h op hop
    | str s => simp only [livePortsLoop] at h; exact ih _ _ h op hop
    | arr xs => simp only [livePortsLoop] at h; exact ih _ _ h op hop

/-- Every patch the node-port reconciler emits on success is a remove at a
formatted node-port path. -/
theorem getNodePortPatch_ok_shape (u : Obj) (ps : List PatchOp)
    (h : getNodePortPatch u = .ok ps) :
    ∀ op ∈ ps, ∃ j, op = .remove (nodePortPath j) := by
  unfold getNodePortPatch at h
  repeat' split at h
  all_goals first
    | exact livePortsLoop_ok_shape _ _ _ _ _ h
    | (injection h with h1; subst h1; intro op hop; cases hop)
    | exact Res.noConfusion h

/-- The seventh character of a formatted node-port path, independent of
the index. -/
theorem nodePortPath_data_six (j : Nat) : (nodePortPath j).data[6]? = some 'p' := by
  have hlen : ("/spec/ports/".data).length = 12 := by with_unfolding_all rfl
  have e : (nodePortPath j).data
      = ("/spec/ports/".data ++ (toString j).data) ++ "/nodePort".data := rfl
  have h6a : 6 < ("/spec/ports/".data ++ (toString j).data).length := by
    simp only [List.length_append, hlen]
    omega
  have h6b : (6 : Nat) < ("/spec/ports/".data).length := by
    rw [hlen]
    omega
  rw [e, List.getElem?_append_left h6a, List.getElem?_append_left h6b]
  with_unfolding_all rfl

/-- A formatted node-port path never equals a string whose seventh
character is not `p`. -/
theorem nodePortPath_ne_fixed (j : Nat) (s : String) (hs : s.data[6]? ≠ some 'p') :
    nodePortPath j ≠ s := by
  intro h
  apply hs
  rw [← h]
  exact nodePortPath_data_six j

/-- A remove at a path whose seventh character is not `p` cannot occur
among node-port removes. -/
theorem remove_notin_nodePort_tail (tail : List PatchOp) (s : String)
    (htail : ∀ op ∈ tail, ∃ j, op = .remove (nodePortPath j))
    (hs : s.data[6]? ≠ some 'p') :
    PatchOp.remove s ∉ tail := by
  intro hm
  obtain ⟨j, hj⟩ := htail _ hm
  injection hj with hj'
  exact nodePortPath_ne_fixed j s hs hj'.symm

/-- C8: the service sanitizer's clusterIP decisions — `spec.clusterIP` is
removed iff it is present with a value other than the `"None"` sentinel,
and `spec.clusterIPs` iff it is present and not list-shaped, or empty, or
with a first element other than `"None"`; and on a successful synthesis
the corresponding remove operation occurs in the emitted list exactly when
the decision holds. -/
theorem service_clusterIP_removal_characterized :
    (∀ u : Obj, shouldRemoveServiceClusterIP u = true
      ↔ ∃ specMap v, lookupField u "spec" = some (.obj specMap)
          ∧ lookupField specMap "clusterIP" = some v ∧ v ≠ .str "None")
    ∧ (∀ u : Obj, shouldRemoveServiceClusterIPs u = true
      ↔ ∃ specMap v, lookupField u "spec" = some (.obj specMap)
          ∧ lookupField specMap "clusterIPs" = some v
          ∧ ((∀ xs, v ≠ .arr xs) ∨ v = .arr []
              ∨ ∃ x xs, v = .arr (x :: xs) ∧ x ≠ .str "None"))
    ∧ (∀ (u : Obj) (ps : List PatchOp), removeServiceFields u = .ok ps →
        (PatchOp.remove "/spec/clusterIP" ∈ ps ↔ shouldRemoveServiceClusterIP u = true)
        ∧ (PatchOp.remove "/spec/clusterIPs" ∈ ps ↔ shouldRemoveServiceClusterIPs u = true)) := by
  refine ⟨shouldRemoveServiceClusterIP_iff, shouldRemoveServiceClusterIPs_iff, ?_⟩
  intro u ps h
  unfold removeServiceFields at h
  cases hnp : getNodePortPatch u with
  | ok tail =>
    rw [hnp] at h
    injection h with h1
    subst h1
    have htail := getNodePortPatch_ok_shape u tail hnp
    have hnotIP : PatchOp.remove "/spec/clusterIP" ∉ tail :=
      remove_notin_nodePort_tail tail _ htail (by decide)
    have hnotIPs : PatchOp.remove "/spec/clusterIPs" ∉ tail :=
      remove_notin_nodePort_tail tail _ htail (by decide)
    by_cases h1 : isLoadBalancerService u = true <;>
    by_cases h2 : shouldRemoveServiceClusterIP u = true <;>
    by_cases h3 : shouldRemoveServiceClusterIPs u = true <;>
      simp only [Bool.not_eq_true] at h1 h2 h3 <;>
      simp [h1, h2, h3, List.mem_append, hnotIP, hnotIPs]
  | err a m =>
    rw [hnp] at h
    exact Res.noConfusion h
  | panicked =>
    rw [hnp] at h
    exact Res.noConfusion h

/-- C8 witness: the headful service has both removes, matching both
decisions. -/
theorem service_clusterIP_removal_characterized_witness :
    (PatchOp.remove "/spec/clusterIP"
        ∈ [PatchOp.remove "/spec/clusterIP", PatchOp.remove "/spec/clusterIPs"]
      ↔ shouldRemoveServiceClusterIP clusterIPSvc = true)
    ∧ (PatchOp.remove "/spec/clusterIPs"
        ∈ [PatchOp.remove "/spec/clusterIP", PatchOp.remove "/spec/clusterIPs"]
      ↔ shouldRemoveServiceClusterIPs clusterIPSvc = true) :=
  service_clusterIP_removal_characterized.2.2 clusterIPSvc
    [PatchOp.remove "/spec/clusterIP", PatchOp.remove "/spec/clusterIPs"]
    (by with_unfolding_all rfl)

/-- Anything the strip loop emits on success is a remove at the pointer of
a listed field that is present in the resource. -/
theorem stripFieldsAux_ok_present (u : Obj) (fields : List (List String)) :
    ∀ ps : List PatchOp, stripFieldsAux u fields = .ok ps →
      ∀ op ∈ ps, ∃ f, f ∈ fields ∧ op = .remove (pathString f) ∧ nestedPresent u f = true := by
  induction fields with
  | nil =>
    intro ps h op hop
    injection h with h1
    subst h1
    cases hop
  | cons f rest ih =>
    intro ps h op hop
    simp only [stripFieldsAux] at h
    split at h
    next m heq => exact Res.noConfusion h
    next heq =>
      obtain ⟨g, hg, hop', hpres⟩ := ih ps h op hop
      exact ⟨g, List.mem_cons_of_mem f hg, hop', hpres⟩
    next v heq =>
      split at h
      next tailPs heq2 =>
        injection h with h1
        subst h1
        cases hop with
        | head =>
          refine ⟨f, List.mem_cons_self f rest, rfl, ?_⟩
          simp [nestedPresent, heq, Nested.isFound]
        | tail _ hmem =>
          obtain ⟨g, hg, hop', hpres⟩ := ih tailPs heq2 op hmem
          exact ⟨g, List.mem_cons_of_mem f hg, hop', hpres⟩
      next tailPs m heq2 => exact Res.noConfusion h
      next heq2 => exact Res.noConfusion h

/-- A conditional append-or-skip step that succeeded produced either the
extended or the unchanged list. -/
theorem ite_ok_cons_cases (c : Prop) [Decidable c] (tailPs ps : List PatchOp) (rm : PatchOp)
    (h : (if c then Res.ok (rm :: tailPs) else Res.ok tailPs) = Res.ok ps) :
    ps = rm :: tailPs ∨ ps = tailPs := by
  split at h
  · left
    injection h with h1
    exact h1.symm
  · right
    injection h with h1
    exact h1.symm

/-- Lifting a node-port presence witness of the tail over one more head
port. -/
theorem presentWitness_lift (x : Value) (rest : List Value) (i j : Nat)
    (pm : List (String × Value)) (v : Value) (op : PatchOp)
    (hj : rest[j]? = some (.obj pm)) (hv : lookupField pm "nodePort" = some v)
    (hop : op = .remove (nodePortPath (i + 1 + j))) :
    ∃ j' pm' v', (x :: rest)[j']? = some (.obj pm')
      ∧ lookupField pm' "nodePort" = some v'
      ∧ op = .remove (nodePortPath (i + j')) := by
  refine ⟨j + 1, pm, v, by simpa using hj, hv, ?_⟩
  rw [(by omega : i + (j + 1) = i + 1 + j)]
  exact hop

/-- Every patch the live node-port loop emits on success is a remove at
the formatted path of a live port that is present (a map at that index)
and carries a `nodePort` key — the loop `continue`s past everything
else. -/
theorem livePortsLoop_ok_present :
    ∀ (e : List String) (un : List Int) (i : Nat) (ports : List Value) (ps : List PatchOp),
      livePortsLoop e un i ports = .ok ps →
      ∀ op ∈ ps, ∃ j pm v, ports[j]? = some (.obj pm)
        ∧ lookupField pm "nodePort" = some v
        ∧ op = .remove (nodePortPath (i + j)) := by
  intro e un i ports
  induction ports generalizing i with
  | nil =>
    intro ps h op hop
    injection h with h1
    subst h1
    cases hop
  | cons x rest ih =>
    intro ps h op hop
    cases x with
    | obj port =>
      cases hnp : lookupField port "nodePort" with
      | none =>
        simp only [livePortsLoop, hnp] at h
        obtain ⟨j, pm, v, hj, hv, hop'⟩ := ih _ _ h op hop
        exact presentWitness_lift _ rest i j pm v op hj hv hop'
      | some nodePort =>
        simp only [livePortsLoop, hnp] at h
        cases hni : getNodePortInt nodePort with
        | error m =>
          simp only [hni] at h
          exact Res.noConfusion h
        | ok n =>
          simp only [hni] at h
          by_cases hz : n = 0
          · rw [if_pos hz] at h
            obtain ⟨j, pm, v, hj, hv, hop'⟩ := ih _ _ h op hop
            exact presentWitness_lift _ rest i j pm v op hj hv hop'
          · rw [if_neg hz] at h
            cases hr : livePortsLoop e un (i + 1) rest with
            | ok tailPs =>
              simp only [hr] at h
              rcases ite_ok_cons_cases _ tailPs ps _ h with hps | hps <;> subst hps
              · cases hop with
                | head =>
                  refine ⟨0, port, nodePort, by simp, hnp, ?_⟩
                  rw [Nat.add_zero]
                | tail _ hmem =>
                  obtain ⟨j, pm, v, hj, hv, hop'⟩ := ih _ _ hr op hmem
                  exact presentWitness_lift _ rest i j pm v op hj hv hop'
              · obtain ⟨j, pm, v, hj, hv, hop'⟩ := ih _ _ hr op hop
                exact presentWitness_lift _ rest i j pm v op hj hv hop'
            | err tailPs m =>
              simp only [hr] at h
              repeat' split at h
              all_goals exact Res.noConfusion h
            | panicked =>
              simp only [hr] at h
              repeat' split at h
              all_goals exact Res.noConfusion h
    | null =>
      simp only [livePortsLoop] at h
      obtain ⟨j, pm, v, hj, hv, hop'⟩ := ih _ _ h op hop
      exact presentWitness_lift _ rest i j pm v op hj hv hop'
    | bool b =>
      simp only [livePortsLoop] at h
      obtain ⟨j, pm, v, hj, hv, hop'⟩ := ih _ _ h op hop
      exact presentWitness_lift _ rest i j pm v op hj hv hop'
    | int m =>
      simp only [livePortsLoop] at h
      obtain ⟨j, pm, v, hj, hv, hop'⟩ := ih _ _ h op hop
      exact presentWitness_lift _ rest i j pm v op hj hv hop'
    | int32 m =>
      simp only [livePortsLoop] at h
      obtain ⟨j, pm, v, hj, hv, hop'⟩ := ih _ _ h op hop
      exact presentWitness_lift _ rest i j pm v op hj hv hop'
    | int64 m =>
      simp only [livePortsLoop] at h
      obtain ⟨j, pm, v, hj, hv, hop'⟩ := ih _ _ h op hop
      exact presentWitness_lift _ rest i j pm v op hj hv hop'
    | num q =>
      simp only [livePortsLoop] at h
      obtain ⟨j, pm, v, hj, hv, hop'⟩ := ih _ _ h op hop
      exact presentWitness_lift _ rest i j pm v op hj hv hop'
    | str s =>
      simp only [livePortsLoop] at h
      obtain ⟨j, pm, v, hj, hv, hop'⟩ := ih _ _ h op hop
      exact presentWitness_lift _ rest i j pm v op hj hv hop'
    | arr xs =>
      simp only [livePortsLoop] at h
      obtain ⟨j, pm, v, hj, hv, hop'⟩ := ih _ _ h op hop
      exact presentWitness_lift _ rest i j pm v op hj hv hop'

/-- Every patch the node-port reconciler emits on success targets the
nodePort of a live port that is present in the resource's `spec.ports`
and carries a `nodePort` key. -/
theorem getNodePortPatch_ok_present :
    ∀ (u : Obj) (ps : List PatchOp), getNodePortPatch u = .ok ps →
      ∀ op ∈ ps, ∃ specMap ports j pm v,
        lookupField u "spec" = some (.obj specMap)
        ∧ lookupField specMap "ports" = some (.arr ports)
        ∧ ports[j]? = some (.obj pm)
        ∧ lookupField pm "nodePort" = some v
        ∧ op = .remove (nodePortPath j) := by
  intro u ps h op hop
  cases hs : lookupField u "spec" with
  | none =>
    simp only [getNodePortPatch, hs] at h
    injection h with h1; subst h1; cases hop
  | some spec =>
    cases spec with
    | obj specMap =>
      cases ht : lookupField specMap "type" with
      | none =>
        simp only [getNodePortPatch, hs, ht] at h
        injection h with h1; subst h1; cases hop
      | some t =>
        by_cases hext : t.eqString "ExternalName" = true
        · simp only [getNodePortPatch, hs, ht] at h
          rw [if_pos hext] at h
          injection h with h1; subst h1; cases hop
        · simp only [getNodePortPatch, hs, ht] at h
          rw [if_neg hext] at h
          cases hp : lookupField specMap "ports" with
          | none =>
            simp only [hp] at h
            injection h with h1; subst h1; cases hop
          | some portsv =>
            cases portsv with
            | arr portsSlice =>
              simp only [hp] at h
              cases ha : lookupString (getAnnotations u) lastAppliedKey with
              | none =>
                simp only [ha] at h
                obtain ⟨j, pm, v, hj, hv, hop'⟩ :=
                  livePortsLoop_ok_present [] [] 0 portsSlice ps h op hop
                exact ⟨specMap, portsSlice, j, pm, v, rfl, hp, hj, hv, by simpa using hop'⟩
              | some cfg =>
                simp only [ha] at h
                cases hjm : jsonUnmarshalObj cfg with
                | error m => simp only [hjm] at h; exact Res.noConfusion h
                | ok applied =>
                  simp only [hjm] at h
                  cases hns : nestedSlice applied ["spec", "ports"] with
                  | error m => simp only [hns] at h; exact Res.noConfusion h
                  | ok o =>
                    simp only [hns] at h
                    cases o with
                    | none =>
                      obtain ⟨j, pm, v, hj, hv, hop'⟩ :=
                        livePortsLoop_ok_present [] [] 0 portsSlice ps h op hop
                      exact ⟨specMap, portsSlice, j, pm, v, rfl, hp, hj, hv, by simpa using hop'⟩
                    | some aports =>
                      cases hap : appliedPortsLoop aports [] [] with
                      | panicked => simp only [hap] at h; exact Res.noConfusion h
                      | err pr m => simp only [hap] at h; exact Res.noConfusion h
                      | ok pr =>
                        obtain ⟨e1, un1⟩ := pr
                        simp only [hap] at h
                        obtain ⟨j, pm, v, hj, hv, hop'⟩ :=
                          livePortsLoop_ok_present e1 un1 0 portsSlice ps h op hop
                        exact ⟨specMap, portsSlice, j, pm, v, rfl, hp, hj, hv, by simpa using hop'⟩
            | null => simp only [hp] at h; injection h with h1; subst h1; cases hop
            | bool b => simp only [hp] at h; injection h with h1; subst h1; cases hop
            | int n => simp only [hp] at h; injection h with h1; subst h1; cases hop
            | int32 n => simp only [hp] at h; injection h with h1; subst h1; cases hop
            | int64 n => simp only [hp] at h; injection h with h1; subst h1; cases hop
            | num q => simp only [hp] at h; injection h with h1; subst h1; cases hop
            | str s => simp only [hp] at h; injection h with h1; subst h1; cases hop
            | obj fs => simp only [hp] at h; injection h with h1; subst h1; cases hop
    | null => simp only [getNodePortPatch, hs] at h; injection h with h1; subst h1; cases hop
    | bool b => simp only [getNodePortPatch, hs] at h; injection h with h1; subst h1; cases hop
    | int n => simp only [getNodePortPatch, hs] at h; injection h with h1; subst h1; cases hop
    | int32 n => simp only [getNodePortPatch, hs] at h; injection h with h1; subst h1; cases hop
    | int64 n => simp only [getNodePortPatch, hs] at h; injection h with h1; subst h1; cases hop
    | num q => simp only [getNodePortPatch, hs] at h; injection h with h1; subst h1; cases hop
    | str s => simp only [getNodePortPatch, hs] at h; injection h with h1; subst h1; cases hop
    | arr xs => simp only [getNodePortPatch, hs] at h; injection h with h1; subst h1; cases hop

/-- C4 counterexample: an unowned bare Pod with no `spec` at all still
receives removes for `/spec/nodeName`, `/spec/nodeSelector` and
`/spec/priority` — paths that are not present in the resource — so the
claim that every emitted remove targets a confirmed-present path is
wrong. -/
theorem remove_without_presence_counterexample :
    Run defaultPlugin bareMinimalPod
      = .returns { version := versionV1, isWhiteOut := false, patches := podFieldsPatches } none
    ∧ nestedPresent bareMinimalPod ["spec", "nodeName"] = false :=
  ⟨by with_unfolding_all rfl, by with_unfolding_all rfl⟩

/-- C4 amended: the presence check holds for the field stripper (every
remove it emits targets a present listed path), for the clusterIP and
clusterIPs removes (their decision requires the field to be present), and
for the node-port reconciler (every remove it emits on success targets
`spec.ports[j].nodePort` for a live port `j` that is present and carries a
nodePort key); it fails for the pod-field, remove-annotations and
externalIPs removes, which are emitted without any presence check. -/
theorem presence_checked_removes :
    (∀ (u : Obj) (ps : List PatchOp), stripFields u = .ok ps →
      ∀ op ∈ ps, ∃ f, f ∈ fieldsToStrip ∧ op = .remove (pathString f) ∧ nestedPresent u f = true)
    ∧ (∀ u : Obj, shouldRemoveServiceClusterIP u = true →
        ∃ specMap, lookupField u "spec" = some (.obj specMap)
          ∧ (lookupField specMap "clusterIP").isSome = true)
    ∧ (∀ u : Obj, shouldRemoveServiceClusterIPs u = true →
        ∃ specMap, lookupField u "spec" = some (.obj specMap)
          ∧ (lookupField specMap "clusterIPs").isSome = true)
    ∧ (∀ (u : Obj) (ps : List PatchOp), getNodePortPatch u = .ok ps →
        ∀ op ∈ ps, ∃ specMap ports j pm v,
          lookupField u "spec" = some (.obj specMap)
          ∧ lookupField specMap "ports" = some (.arr ports)
          ∧ ports[j]? = some (.obj pm)
          ∧ lookupField pm "nodePort" = some v
          ∧ op = .remove (nodePortPath j)) := by
  refine ⟨fun u ps h => stripFieldsAux_ok_present u fieldsToStrip ps h, ?_, ?_,
    getNodePortPatch_ok_present⟩
  · intro u h
    obtain ⟨specMap, v, h1, h2, _⟩ := (shouldRemoveServiceClusterIP_iff u).mp h
    exact ⟨specMap, h1, by simp [h2]⟩
  · intro u h
    obtain ⟨specMap, v, h1, h2, _⟩ := (shouldRemoveServiceClusterIPs_iff u).mp h
    exact ⟨specMap, h1, by simp [h2]⟩

/-- C4 amended witness: the stripper's first remove on the partially
populated resource targets a present listed path, and the reconciler's
first remove on the two-port service targets a present live nodePort. -/
theorem presence_checked_removes_witness :
    (∃ f, f ∈ fieldsToStrip ∧ PatchOp.remove "/metadata/uid" = .remove (pathString f)
      ∧ nestedPresent metaStatusRes f = true)
    ∧ (∃ specMap ports j pm v,
        lookupField livePortsSvc "spec" = some (.obj specMap)
        ∧ lookupField specMap "ports" = some (.arr ports)
        ∧ ports[j]? = some (.obj pm)
        ∧ lookupField pm "nodePort" = some v
        ∧ PatchOp.remove (nodePortPath 0) = .remove (nodePortPath j)) :=
  ⟨presence_checked_removes.1 metaStatusRes
      [.remove "/metadata/uid", .remove "/metadata/generation", .remove "/status"]
      (by with_unfolding_all rfl) (.remove "/metadata/uid") (List.mem_cons_self _ _),
   presence_checked_removes.2.2.2 livePortsSvc
      [.remove (nodePortPath 0), .remove (nodePortPath 1)]
      (by with_unfolding_all rfl) (.remove (nodePortPath 0)) (List.mem_cons_self _ _)⟩

/-- With empty explicit sets (no snapshot) and all nodePorts normalizing,
the live loop succeeds and removes every port whose nodePort normalizes to
a nonzero integer — in particular every positive one. -/
theorem livePortsLoop_empty_sets_eq (ports : List Value) :
    ∀ i : Nat, ports.all portNormalizes = true →
      ∃ ps, livePortsLoop [] [] i ports = .ok ps
        ∧ ∀ j pm v n, ports[j]? = some (.obj pm) → lookupField pm "nodePort" = some v →
            getNodePortInt v = .ok n → 0 < n →
            PatchOp.remove (nodePortPath (i + j)) ∈ ps := by
  induction ports with
  | nil =>
    intro i _
    refine ⟨[], rfl, ?_⟩
    intro j pm v n hj
    simp at hj
  | cons x rest ih =>
    intro i hall
    rw [List.all_cons, Bool.and_eq_true] at hall
    obtain ⟨hax, harest⟩ := hall
    obtain ⟨tailPs, heqT, hmemT⟩ := ih (i + 1) harest
    cases x with
    | obj pm0 =>
      cases hnp : lookupField pm0 "nodePort" with
      | none =>
        refine ⟨tailPs, by simp only [livePortsLoop, hnp]; exact heqT, ?_⟩
        intro j pm v n hj hv hn hpos
        cases j with
        | zero =>
          simp only [List.getElem?_cons_zero, Option.some.injEq] at hj
          injection hj with hpm
          subst hpm
          rw [hnp] at hv
          exact Option.noConfusion hv
        | succ j =>
          simp only [List.getElem?_cons_succ] at hj
          have hidx : i + (j + 1) = i + 1 + j := by omega
          rw [hidx]
          exact hmemT j pm v n hj hv hn hpos
      | some nodePort =>
        have hok : ∃ n0, getNodePortInt nodePort = .ok n0 := by
          simp only [portNormalizes, hnp] at hax
          cases hgi : getNodePortInt nodePort with
          | ok n0 => exact ⟨n0, rfl⟩
          | error m => exact Bool.noConfusion (by simp only [hgi] at hax; exact hax)
        obtain ⟨n0, hn0⟩ := hok
        by_cases hz : n0 = 0
        · refine ⟨tailPs, ?_, ?_⟩
          · simp only [livePortsLoop, hnp, hn0]
            rw [if_pos hz]
            exact heqT
          · intro j pm v n hj hv hn hpos
            cases j with
            | zero =>
              simp only [List.getElem?_cons_zero, Option.some.injEq] at hj
              injection hj with hpm
              subst hpm
              rw [hnp] at hv
              injection hv with hv1
              subst hv1
              rw [hn0] at hn
              injection hn with hn1
              omega
            | succ j =>
              simp only [List.getElem?_cons_succ] at hj
              have hidx : i + (j + 1) = i + 1 + j := by omega
              rw [hidx]
              exact hmemT j pm v n hj hv hn hpos
        · refine ⟨.remove (nodePortPath i) :: tailPs, ?_, ?_⟩
          · simp only [livePortsLoop, hnp, hn0]
            rw [if_neg hz]
            have hrm : (if 0 < (match lookupField pm0 "name" with
                    | some (.str s) => s | _ => "").length
                then !(([] : List String).contains (match lookupField pm0 "name" with
                    | some (.str s) => s | _ => ""))
                else !(([] : List Int).contains n0)) = true := by
              split <;> rfl
            rw [hrm, if_pos rfl, heqT]
          · intro j pm v n hj hv hn hpos
            cases j with
            | zero =>
              simp [Nat.add_zero]
            | succ j =>
              simp only [List.getElem?_cons_succ] at hj
              have hidx : i + (j + 1) = i + 1 + j := by omega
              rw [hidx]
              exact List.mem_cons_of_mem _ (hmemT j pm v n hj hv hn hpos)
    | null =>
      refine ⟨tailPs, by simp only [livePortsLoop]; exact heqT, ?_⟩
      intro j pm v n hj hv hn hpos
      cases j with
      | zero => simp at hj
      | succ j =>
        simp only [List.getElem?_cons_succ] at hj
        have hidx : i + (j + 1) = i + 1 + j := by omega
        rw [hidx]
        exact hmemT j pm v n hj hv hn hpos
    | bool b =>
      refine ⟨tailPs, by simp only [livePortsLoop]; exact heqT, ?_⟩
      intro j pm v n hj hv hn hpos
      cases j with
      | zero => simp at hj
      | succ j =>
        simp only [List.getElem?_cons_succ] at hj
        have hidx : i + (j + 1) = i + 1 + j := by omega
        rw [hidx]
        exact hmemT j pm v n hj hv hn hpos
    | int m =>
      refine ⟨tailPs, by simp only [livePortsLoop]; exact heqT, ?_⟩
      intro j pm v n hj hv hn hpos
      cases j with
      | zero => simp at hj
      | succ j =>
        simp only [List.getElem?_cons_succ] at hj
        have hidx : i + (j + 1) = i + 1 + j := by omega
        rw [hidx]
        exact hmemT j pm v n hj hv hn hpos
    | int32 m =>
      refine ⟨tailPs, by simp only [livePortsLoop]; exact heqT, ?_⟩
      intro j pm v n hj hv hn hpos
      cases j with
      | zero => simp at hj
      | succ j =>
        simp only [List.getElem?_cons_succ] at hj
        have hidx : i + (j + 1) = i + 1 + j := by omega
        rw [hidx]
        exact hmemT j pm v n hj hv hn hpos
    | int64 m =>
      refine ⟨tailPs, by simp only [livePortsLoop]; exact heqT, ?_⟩
      intro j pm v n hj hv hn hpos
      cases j with
      | zero => simp at hj
      | succ j =>
        simp only [List.getElem?_cons_succ] at hj
        have hidx : i + (j + 1) = i + 1 + j := by omega
        rw [hidx]
        exact hmemT j pm v n hj hv hn hpos
    | num q =>
      refine ⟨tailPs, by simp only [livePortsLoop]; exact heqT, ?_⟩
      intro j pm v n hj hv hn hpos
      cases j with
      | zero => simp at hj
      | succ j =>
        simp only [List.getElem?_cons_succ] at hj
        have hidx : i + (j + 1) = i + 1 + j := by omega
        rw [hidx]
        exact hmemT j pm v n hj hv hn hpos
    | str s =>
      refine ⟨tailPs, by simp only [livePortsLoop]; exact heqT, ?_⟩
      intro j pm v n hj hv hn hpos
      cases j with
      | zero => simp at hj
      | succ j =>
        simp only [List.getElem?_cons_succ] at hj
        have hidx : i + (j + 1) = i + 1 + j := by omega
        rw [hidx]
        exact hmemT j pm v n hj hv hn hpos
    | arr xs =>
      refine ⟨tailPs, by simp only [livePortsLoop]; exact heqT, ?_⟩
      intro j pm v n hj hv hn hpos
      cases j with
      | zero => simp at hj
      | succ j =>
        simp only [List.getElem?_cons_succ] at hj
        have hidx : i + (j + 1) = i + 1 + j := by omega
        rw [hidx]
        exact hmemT j pm v n hj hv hn hpos

/-- C3 counterexample: in the mixed service the second live port carries
the present, positive nodePort 30080, yet no remove for it is emitted —
the unparseable string nodePort of the first port aborts the reconciler
with an error and an empty patch, so the claim's per-port guarantee fails
as stated. -/
theorem nodePort_error_aborts_removals :
    getNodePortPatch mixedPortsSvc = .err [] "parsing abc: invalid syntax"
    ∧ lookupString (getAnnotations mixedPortsSvc) lastAppliedKey = none
    ∧ getNodePortInt (Value.int 30080) = .ok 30080 :=
  ⟨by with_unfolding_all rfl, by with_unfolding_all rfl, rfl⟩

/-- C3 amended: on a Service with a live ports list, a present type other
than ExternalName, and no last-applied-configuration annotation, provided
every live nodePort normalizes without error, the reconciler succeeds and
emits a remove at `/spec/ports/j/nodePort` for every port `j` whose
nodePort is present and normalizes to a positive integer. -/
theorem no_snapshot_removes_positive_nodePorts :
    ∀ (u : Obj) (specMap : List (String × Value)) (t : Value) (ports : List Value),
      lookupField u "spec" = some (.obj specMap) →
      lookupField specMap "type" = some t →
      t.eqString "ExternalName" = false →
      lookupField specMap "ports" = some (.arr ports) →
      lookupString (getAnnotations u) lastAppliedKey = none →
      ports.all portNormalizes = true →
      ∃ ps, getNodePortPatch u = .ok ps
        ∧ ∀ j pm v n, ports[j]? = some (.obj pm) → lookupField pm "nodePort" = some v →
            getNodePortInt v = .ok n → 0 < n →
            PatchOp.remove (nodePortPath j) ∈ ps := by
  intro u specMap t ports h1 h2 h3 h4 h5 hall
  obtain ⟨ps, heq, hmem⟩ := livePortsLoop_empty_sets_eq ports 0 hall
  refine ⟨ps, ?_, ?_⟩
  · simp only [getNodePortPatch, h1, h2, h3, h4, h5, Bool.false_eq_true, if_false]
    exact heq
  · intro j pm v n hj hv hn hpos
    have hm := hmem j pm v n hj hv hn hpos
    rwa [Nat.zero_add] at hm

/-- C3 amended witness: the two-port service with no snapshot gets a
remove for its first (named) port at index 0. -/
theorem no_snapshot_removes_positive_nodePorts_witness :
    ∃ ps, getNodePortPatch livePortsSvc = .ok ps
      ∧ ∀ j pm v n,
          [Value.obj [("name", Value.str "http"), ("nodePort", Value.int 30080)],
           Value.obj [("nodePort", Value.int 31000)]][j]? = some (Value.obj pm) →
          lookupField pm "nodePort" = some v →
          getNodePortInt v = .ok n → 0 < n →
          PatchOp.remove (nodePortPath j) ∈ ps :=
  no_snapshot_removes_positive_nodePorts livePortsSvc
    [("type", .str "NodePort"),
     ("ports", .arr [.obj [("name", .str "http"), ("nodePort", .int 30080)],
                     .obj [("nodePort", .int 31000)]])]
    (.str "NodePort")
    [.obj [("name", .str "http"), ("nodePort", .int 30080)],
     .obj [("nodePort", .int 31000)]]
    rfl rfl rfl rfl (by with_unfolding_all rfl) (by with_unfolding_all rfl)

end CraneLib
